/-
Verification of the code-contest-integrity scraping/ETL scripts.

Shallow embedding of the pure logic of the repository's Python scripts:
  * backend/scripts/seed_problems.py       (Codeforces HTML scraper)
  * backend/scripts/seed_problems_api.py   (Codeforces API scraper)
  * backend/scripts/seed_leetcode.py       (LeetCode scraper)
  * backend/scripts/scrape_codeforces_full.py
  * backend/scripts/scrape_leetcode_complete.py

Python strings are modelled as Lean `String` (length counts code points,
matching Python `len`).  Python `str.strip()` is modelled over the ASCII
whitespace characters (space, tab, LF, CR, VT, FF); all inputs handled by
these scripts are covered by this set.
-/
import Mathlib

namespace CodeContest

/-! ## Python string primitives -/

/-- Python whitespace characters recognised by `str.strip()` (ASCII part). -/
def isPyWs (c : Char) : Bool :=
  c = ' ' || c = '\t' || c = '\n' || c = '\r' || c = '\x0b' || c = '\x0c'

/-- Python `s.strip()`: remove leading and trailing whitespace. -/
def pyStrip (s : String) : String :=
  ⟨((s.data.dropWhile isPyWs).reverse.dropWhile isPyWs).reverse⟩

/-- Python `s.lower()` (ASCII case folding, as used on the tag strings). -/
def pyLower (s : String) : String :=
  ⟨s.data.map Char.toLower⟩

/-! ## C1 — DifficultyMapper.map_rating

`seed_problems.py` lines 716–733 and `seed_problems_api.py` lines 244–254.
Both bodies are the same chain of comparisons; `rating` is `Optional[int]`. -/

/-- `DifficultyMapper.map_rating` from `seed_problems.py`. -/
def mapRatingSeed (rating : Option Int) : String :=
  match rating with
  | none => "medium"
  | some r =>
    if r < 1200 then "easy"
    else if r ≤ 1600 then "medium"
    else "hard"

/-- `DifficultyMapper.map_rating` from `seed_problems_api.py`. -/
def mapRatingApi (rating : Option Int) : String :=
  match rating with
  | none => "medium"
  | some r =>
    if r < 1200 then "easy"
    else if r ≤ 1600 then "medium"
    else "hard"

/-- C1: the difficulty mapping returns `medium` for an absent rating,
`easy` below 1200, `medium` on [1200, 1600], `hard` above 1600; the
boundary values 1199/1200/1600/1601 land as stated; and the two
`DifficultyMapper.map_rating` implementations agree on every input. -/
theorem c1_map_rating :
    (∀ r : Option Int, mapRatingSeed r = mapRatingApi r) ∧
    mapRatingSeed none = "medium" ∧
    (∀ r : Int,
      (r < 1200 → mapRatingSeed (some r) = "easy") ∧
      (1200 ≤ r → r ≤ 1600 → mapRatingSeed (some r) = "medium") ∧
      (1600 < r → mapRatingSeed (some r) = "hard")) ∧
    mapRatingSeed (some 1199) = "easy" ∧
    mapRatingSeed (some 1200) = "medium" ∧
    mapRatingSeed (some 1600) = "medium" ∧
    mapRatingSeed (some 1601) = "hard" := by
  refine ⟨fun r => rfl, rfl, fun r => ⟨?_, ?_, ?_⟩, by decide, by decide, by decide, by decide⟩
  · intro h; simp only [mapRatingSeed]; rw [if_pos h]
  · intro h1 h2; simp only [mapRatingSeed]; rw [if_neg (by omega), if_pos h2]
  · intro h; simp only [mapRatingSeed]; rw [if_neg (by omega), if_neg (by omega)]

/-- C1 witness: the bucketing theorem applied at the concrete ratings
1000, 1400 and 2000. -/
theorem c1_map_rating_witness :
    mapRatingSeed (some 1000) = "easy" ∧
    mapRatingSeed (some 1400) = "medium" ∧
    mapRatingSeed (some 2000) = "hard" :=
  ⟨(c1_map_rating.2.2.1 1000).1 (by decide),
   (c1_map_rating.2.2.1 1400).2.1 (by decide) (by decide),
   (c1_map_rating.2.2.1 2000).2.2 (by decide)⟩

/-! ## C2 — DataValidator.validate

`seed_problems_api.py` lines 406–434 and `seed_leetcode.py` lines 420–436.
The record is a Python dict; the fields the validators inspect are modelled
as optional strings (`none` = key absent). -/

/-- The fields of a problem record that the validators inspect.
`none` models an absent dict key. -/
structure PRecord where
  title : Option String
  description : Option String
  difficulty : Option String
  externalId : Option String
deriving Repr, DecidableEq

/-- Python truthiness test `field not in problem_data or not problem_data[field]`:
violated when the key is absent or its string value is empty. -/
def fieldMissing (v : Option String) : Bool :=
  match v with
  | none => true
  | some s => s = ""

/-- A single conditional error message, as appended by the validators. -/
def condErr (c : Bool) (msg : String) : List String :=
  if c then [msg] else []

/-- `DataValidator.validate` from `seed_problems_api.py`: required fields,
difficulty whitelist, description ≥ 500 chars, title ≤ 200 chars;
errors are accumulated in order and validity is `len(errors) == 0`. -/
def apiValidate (r : PRecord) : Bool × List String :=
  let errors :=
    condErr (fieldMissing r.title) "Missing required field: title" ++
    condErr (fieldMissing r.description) "Missing required field: description" ++
    condErr (fieldMissing r.difficulty) "Missing required field: difficulty" ++
    condErr (fieldMissing r.externalId) "Missing required field: externalId" ++
    (match r.difficulty with
     | some d => condErr (¬ (d = "easy" ∨ d = "medium" ∨ d = "hard") : Bool)
         ("Invalid difficulty: " ++ d)
     | none => []) ++
    (match r.description with
     | some d => condErr (d.length < 500)
         ("Description too short: " ++ toString d.length ++ " chars (minimum 500)")
     | none => []) ++
    (match r.title with
     | some t => condErr (t.length > 200)
         ("Title too long: " ++ toString t.length ++ " chars (maximum 200)")
     | none => [])
  (errors.isEmpty, errors)

/-- `DataValidator.validate` from `seed_leetcode.py`: same checks except that
no title-length rule exists there. -/
def leetValidate (r : PRecord) : Bool × List String :=
  let errors :=
    condErr (fieldMissing r.title) "Missing: title" ++
    condErr (fieldMissing r.description) "Missing: description" ++
    condErr (fieldMissing r.difficulty) "Missing: difficulty" ++
    condErr (fieldMissing r.externalId) "Missing: externalId" ++
    (match r.difficulty with
     | some d => condErr (¬ (d = "easy" ∨ d = "medium" ∨ d = "hard") : Bool)
         ("Invalid difficulty: " ++ d)
     | none => []) ++
    (match r.description with
     | some d => condErr (d.length < 500)
         ("Description too short: " ++ toString d.length ++ " chars")
     | none => [])
  (errors.isEmpty, errors)

/-- Rule: difficulty, when present, must be in {easy, medium, hard}. -/
def diffInvalid (r : PRecord) : Bool :=
  match r.difficulty with
  | some d => ¬ (d = "easy" ∨ d = "medium" ∨ d = "hard")
  | none => false

/-- Rule: description, when present, must have length ≥ 500. -/
def descShort (r : PRecord) : Bool :=
  match r.description with
  | some d => d.length < 500
  | none => false

/-- Rule: title, when present, must have length ≤ 200. -/
def titleLong (r : PRecord) : Bool :=
  match r.title with
  | some t => t.length > 200
  | none => false

/-- A record violating only the title-length rule: title of 201 characters,
description of 500 characters, difficulty and externalId well-formed. -/
def titleOnlyBad : PRecord :=
  { title := some ⟨List.replicate 201 'a'⟩
    description := some ⟨List.replicate 500 'd'⟩
    difficulty := some "easy"
    externalId := some "cf_1_A" }

set_option maxRecDepth 8192 in
/-- C2 counterexample: the claim asserts that *both* `DataValidator`
implementations enforce the title ≤ 200 rule, but `seed_leetcode.py`'s
validator has no title-length check: on a record whose title has 201
characters it reports valid with no messages, while the title rule is
violated (as the API validator witnesses). -/
theorem c2_counterexample :
    leetValidate titleOnlyBad = (true, []) ∧
    titleLong titleOnlyBad = true ∧
    apiValidate titleOnlyBad =
      (false, ["Title too long: 201 chars (maximum 200)"]) := by
  refine ⟨?_, ?_, ?_⟩ <;> decide

theorem condErr_eq_nil (c : Bool) (m : String) : condErr c m = [] ↔ c = false := by
  cases c <;> simp [condErr]

theorem condErr_length (c : Bool) (m : String) :
    (condErr c m).length = if c then 1 else 0 := by
  cases c <;> simp [condErr]

/-- C2 amended: both validators accumulate one message per violated rule and
report valid exactly when their own rule set has no violation; the API
validator checks the four required fields, the difficulty whitelist, the
500-character description minimum and the 200-character title maximum, while
the LeetCode validator checks the same rules *except* the title maximum. -/
theorem c2_validators :
    ∀ r : PRecord,
      ((apiValidate r).1 = true ↔
        (fieldMissing r.title = false ∧ fieldMissing r.description = false ∧
         fieldMissing r.difficulty = false ∧ fieldMissing r.externalId = false ∧
         diffInvalid r = false ∧ descShort r = false ∧ titleLong r = false)) ∧
      ((leetValidate r).1 = true ↔
        (fieldMissing r.title = false ∧ fieldMissing r.description = false ∧
         fieldMissing r.difficulty = false ∧ fieldMissing r.externalId = false ∧
         diffInvalid r = false ∧ descShort r = false)) ∧
      (apiValidate r).2.length =
        ((if fieldMissing r.title then 1 else 0) +
         (if fieldMissing r.description then 1 else 0) +
         (if fieldMissing r.difficulty then 1 else 0) +
         (if fieldMissing r.externalId then 1 else 0) +
         (if diffInvalid r then 1 else 0) +
         (if descShort r then 1 else 0) +
         (if titleLong r then 1 else 0)) ∧
      (leetValidate r).2.length =
        ((if fieldMissing r.title then 1 else 0) +
         (if fieldMissing r.description then 1 else 0) +
         (if fieldMissing r.difficulty then 1 else 0) +
         (if fieldMissing r.externalId then 1 else 0) +
         (if diffInvalid r then 1 else 0) +
         (if descShort r then 1 else 0)) ∧
      (((apiValidate r).1 = true ↔ (apiValidate r).2 = []) ∧
       ((leetValidate r).1 = true ↔ (leetValidate r).2 = [])) := by
  intro r
  obtain ⟨t, d, df, e⟩ := r
  refine ⟨?_, ?_, ?_, ?_, ?_, ?_⟩
  · simp only [apiValidate, List.isEmpty_iff, List.append_eq_nil, condErr_eq_nil]
    cases df <;> cases d <;> cases t <;>
      simp [diffInvalid, descShort, titleLong, condErr_eq_nil] <;> tauto
  · simp only [leetValidate, List.isEmpty_iff, List.append_eq_nil, condErr_eq_nil]
    cases df <;> cases d <;> cases t <;>
      simp [diffInvalid, descShort, condErr_eq_nil] <;> tauto
  · simp only [apiValidate, List.length_append, condErr_length]
    cases df <;> cases d <;> cases t <;>
      simp [diffInvalid, descShort, titleLong, condErr_length]
  · simp only [leetValidate, List.length_append, condErr_length]
    cases df <;> cases d <;>
      simp [diffInvalid, descShort, condErr_length]
  · simp [apiValidate, List.isEmpty_iff]
  · simp [leetValidate, List.isEmpty_iff]

/-! ## C3 — category inference from tags

`seed_leetcode.py` lines 373–388 (`ProblemTransformer._map_category`) and
`seed_problems_api.py` lines 256–272 (`DifficultyMapper.get_category_from_tags`).
Both lowercase the tag list and test exact membership of fixed keywords,
first matching rule winning; their keyword lists differ. -/

/-- Python `any(t in tag_lower for t in kws)`: some keyword occurs as an
element of the lowered tag list. -/
def kwHit (kws : List String) (tagLower : List String) : Bool :=
  kws.any (fun t => tagLower.contains t)

/-- `ProblemTransformer._map_category` from `seed_leetcode.py`. -/
def leetMapCategory (tags : List String) : String :=
  let tagLower := tags.map pyLower
  if kwHit ["dynamic programming", "dp"] tagLower then "Dynamic Programming"
  else if kwHit ["graph", "tree", "dfs", "bfs"] tagLower then "Graph Theory"
  else if kwHit ["array", "hash table", "stack", "queue"] tagLower then "Data Structure"
  else if kwHit ["math", "geometry"] tagLower then "Mathematics"
  else if kwHit ["string"] tagLower then "String Processing"
  else "Algorithm"

/-- `DifficultyMapper.get_category_from_tags` from `seed_problems_api.py`. -/
def apiGetCategoryFromTags (tags : List String) : String :=
  let tagLower := tags.map pyLower
  if kwHit ["dp", "dynamic programming"] tagLower then "Dynamic Programming"
  else if kwHit ["graph", "trees", "dfs", "bfs"] tagLower then "Graph Theory"
  else if kwHit ["data structures", "dsu", "segment tree"] tagLower then "Data Structure"
  else if kwHit ["math", "number theory", "combinatorics"] tagLower then "Mathematics"
  else if kwHit ["strings", "string"] tagLower then "String Processing"
  else "Algorithm"

/-- Ordered keyword rule list of the LeetCode implementation. -/
def leetRules : List (List String × String) :=
  [(["dynamic programming", "dp"], "Dynamic Programming"),
   (["graph", "tree", "dfs", "bfs"], "Graph Theory"),
   (["array", "hash table", "stack", "queue"], "Data Structure"),
   (["math", "geometry"], "Mathematics"),
   (["string"], "String Processing")]

/-- Ordered keyword rule list of the Codeforces-API implementation. -/
def apiRules : List (List String × String) :=
  [(["dp", "dynamic programming"], "Dynamic Programming"),
   (["graph", "trees", "dfs", "bfs"], "Graph Theory"),
   (["data structures", "dsu", "segment tree"], "Data Structure"),
   (["math", "number theory", "combinatorics"], "Mathematics"),
   (["strings", "string"], "String Processing")]

/-- Category inference as the amended claim words it: lowercase the tags,
scan an ordered rule list, return the first rule one of whose keywords is a
member of the lowered tag list, defaulting to `Algorithm`. -/
def firstMatchCategory (rules : List (List String × String)) (tags : List String) : String :=
  let tagLower := tags.map pyLower
  match rules.find? (fun rule => rule.1.any (fun t => tagLower.contains t)) with
  | some rule => rule.2
  | none => "Algorithm"

theorem firstMatch_cons (kws : List String) (cat : String)
    (rest : List (List String × String)) (tags : List String) :
    firstMatchCategory ((kws, cat) :: rest) tags =
      if kwHit kws (tags.map pyLower) then cat else firstMatchCategory rest tags := by
  simp only [firstMatchCategory, List.find?, kwHit]
  cases h : kws.any (fun t => (tags.map pyLower).contains t) <;> simp [h]

theorem firstMatch_nil (tags : List String) :
    firstMatchCategory [] tags = "Algorithm" := rfl

/-- C3 counterexample: the claim says the tags graph/tree/dfs/bfs give
`Graph Theory` in both implementations, but on the tag set `["tree"]` the
API implementation returns `Algorithm` (its keyword list has `trees`, not
`tree`), disagreeing with the LeetCode implementation. -/
theorem c3_counterexample :
    apiGetCategoryFromTags ["tree"] = "Algorithm" ∧
    leetMapCategory ["tree"] = "Graph Theory" ∧
    leetMapCategory ["data structures"] = "Algorithm" ∧
    apiGetCategoryFromTags ["data structures"] = "Data Structure" := by
  refine ⟨?_, ?_, ?_, ?_⟩ <;> decide

/-- C3 amended: each implementation evaluates its own fixed ordered rule
list against the lowercased tag set with exact case-insensitive matching and
the first matching rule wins, defaulting to `Algorithm`; the keyword lists
differ between the two implementations (LeetCode: graph/tree/dfs/bfs,
array/hash table/stack/queue, math/geometry, string; API: graph/trees/dfs/bfs,
data structures/dsu/segment tree, math/number theory/combinatorics,
strings/string); in both, a tag set containing `dp` — in particular one
containing both `dp` and `graph` — resolves to `Dynamic Programming`. -/
theorem c3_category :
    (∀ tags, leetMapCategory tags = firstMatchCategory leetRules tags) ∧
    (∀ tags, apiGetCategoryFromTags tags = firstMatchCategory apiRules tags) ∧
    (∀ tags, (tags.map pyLower).contains "dp" = true →
      leetMapCategory tags = "Dynamic Programming" ∧
      apiGetCategoryFromTags tags = "Dynamic Programming") := by
  refine ⟨?_, ?_, ?_⟩
  · intro tags
    simp only [leetRules, firstMatch_cons, firstMatch_nil, leetMapCategory]
  · intro tags
    simp only [apiRules, firstMatch_cons, firstMatch_nil, apiGetCategoryFromTags]
  · intro tags h
    have hhit1 : kwHit ["dynamic programming", "dp"] (tags.map pyLower) = true := by
      simp [kwHit, List.any_eq_true]
      right
      simpa using h
    have hhit2 : kwHit ["dp", "dynamic programming"] (tags.map pyLower) = true := by
      simp [kwHit, List.any_eq_true]
      left
      simpa using h
    exact ⟨by simp [leetMapCategory, hhit1], by simp [apiGetCategoryFromTags, hhit2]⟩

/-- C3 witness: the amended theorem's `dp` precedence applied at the
concrete tag set `["dp", "graph"]`. -/
theorem c3_category_witness :
    leetMapCategory ["dp", "graph"] = "Dynamic Programming" ∧
    apiGetCategoryFromTags ["dp", "graph"] = "Dynamic Programming" :=
  c3_category.2.2 ["dp", "graph"] (by decide)

/-! ## C4 — description backfill

`seed_leetcode.py` lines 353–371 (`ProblemTransformer._pad_description`) and
its call site in `transform` (lines 291–295). -/

/-- Python `str.capitalize()`: first character upper-cased, rest lower-cased. -/
def pyCapitalize (s : String) : String :=
  match s.data with
  | [] => ""
  | c :: rest => ⟨c.toUpper :: rest.map Char.toLower⟩

/-- The header built by `_pad_description`. -/
def padHeader (title difficulty : String) : String :=
  "# " ++ title ++ "\n\n" ++
  "**Difficulty**: " ++ pyCapitalize difficulty ++ "\n\n" ++
  "**Source**: LeetCode\n\n" ++
  "## Problem Statement\n\n"

/-- The footer built by `_pad_description`. -/
def padFooter : String :=
  "\n\n## Notes\n\n" ++
  "This problem was imported from LeetCode. " ++
  "For the most up-to-date version and additional test cases, " ++
  "please visit the problem on LeetCode."

/-- The filler sentence appended by the `while len(full_desc) < 500` loop. -/
def padFiller : String :=
  "\n\nThis is a programming challenge that tests your problem-solving skills."

/-- The `while len(full_desc) < 500: full_desc += filler` loop. -/
def padLoop (s : String) : String :=
  if s.length < 500 then padLoop (s ++ padFiller) else s
termination_by 500 - s.length
decreasing_by
  simp only [String.length_append]
  have hf : 0 < padFiller.length := by decide
  omega

/-- `ProblemTransformer._pad_description`: header + original + footer, then
filler sentences until the 500-character floor is met. -/
def padDescription (desc title difficulty : String) : String :=
  padLoop (padHeader title difficulty ++ desc ++ padFooter)

/-- The guard in `ProblemTransformer.transform`:
`if len(description) < 500: description = self._pad_description(...)`. -/
def transformDescription (desc title difficulty : String) : String :=
  if desc.length < 500 then padDescription desc title difficulty else desc

theorem padLoop_ge (s : String) : 500 ≤ (padLoop s).length := by
  by_cases h : s.length < 500
  · rw [padLoop, if_pos h]
    exact padLoop_ge (s ++ padFiller)
  · rw [padLoop, if_neg h]
    omega
termination_by 500 - s.length
decreasing_by
  simp only [String.length_append]
  have hf : 0 < padFiller.length := by decide
  omega

/-- C4: the backfilled description always has length ≥ 500 (header and
footer are added, then filler sentences appended while still short), and
when the extracted description already has length ≥ 500 the transform
leaves it unchanged. -/
theorem c4_backfill :
    (∀ desc title difficulty, 500 ≤ (padDescription desc title difficulty).length) ∧
    (∀ desc title difficulty, 500 ≤ (transformDescription desc title difficulty).length) ∧
    (∀ desc title difficulty, 500 ≤ desc.length →
      transformDescription desc title difficulty = desc) := by
  refine ⟨fun desc title difficulty => padLoop_ge _, ?_, ?_⟩
  · intro desc title difficulty
    unfold transformDescription
    by_cases h : desc.length < 500
    · rw [if_pos h]; exact padLoop_ge _
    · rw [if_neg h]; omega
  · intro desc title difficulty h
    unfold transformDescription
    rw [if_neg (by omega)]

set_option maxRecDepth 8192 in
/-- C4 witness: the unchanged-above-threshold part applied to a concrete
500-character description, and the floor applied to the empty description. -/
theorem c4_backfill_witness :
    transformDescription ⟨List.replicate 500 'x'⟩ "Two Sum" "easy" =
      ⟨List.replicate 500 'x'⟩ ∧
    500 ≤ (padDescription "" "Two Sum" "easy").length :=
  ⟨c4_backfill.2.2 _ "Two Sum" "easy" (by decide),
   c4_backfill.1 "" "Two Sum" "easy"⟩

/-! ## C5 — MongoDBClient.insert_problem

`seed_problems_api.py` lines 514–534 and `seed_leetcode.py` lines 498–510.
The problems collection has a unique index on `externalId`; `insert_one`
raises `DuplicateKeyError` exactly when a stored document already carries the
record's `externalId`.  Any other insert failure is modelled by the `fault`
flag (the `except Exception` branch).  Neither `MongoDBClient` class contains
any update/replace/upsert call on the problems collection, so `insert_problem`
is the only operation that writes to it. -/

/-- A problem document: uniqueness key, audit stamps, opaque remaining
fields.  `none` in a stamp models an absent dict key before stamping. -/
structure ProblemDoc where
  externalId : String
  createdBy : Option Nat
  createdAt : Option Nat
  updatedAt : Option Nat
  payload : List (String × String)
deriving Repr, DecidableEq

/-- The problems collection: stored documents with their object ids, plus
the next fresh id. -/
structure ProblemsDB where
  docs : List (Nat × ProblemDoc)
  nextId : Nat
deriving Repr, DecidableEq

/-- The three stamps written before the insert attempt:
`createdBy`, `createdAt`, `updatedAt` (the two `datetime.now()` calls are
the timestamps `t1` and `t2`). -/
def stampRecord (rec : ProblemDoc) (sysUser t1 t2 : Nat) : ProblemDoc :=
  { rec with createdBy := some sysUser, createdAt := some t1, updatedAt := some t2 }

/-- `MongoDBClient.insert_problem` from `seed_problems_api.py`: stamp, then a
single `insert_one`; `DuplicateKeyError` (duplicate `externalId`) returns
`None` without raising; any other failure (`fault`) is logged and returns
`None`. -/
def insertProblemApi (db : ProblemsDB) (sysUser t1 t2 : Nat) (fault : Bool)
    (rec : ProblemDoc) : Option Nat × ProblemsDB :=
  let stamped := stampRecord rec sysUser t1 t2
  if fault then (none, db)
  else if db.docs.any (fun d => d.2.externalId = stamped.externalId) then (none, db)
  else (some db.nextId, ⟨db.docs ++ [(db.nextId, stamped)], db.nextId + 1⟩)

/-- `MongoDBClient.insert_problem` from `seed_leetcode.py`: the same stamps,
single insert attempt and error handling. -/
def insertProblemLeet (db : ProblemsDB) (sysUser t1 t2 : Nat) (fault : Bool)
    (rec : ProblemDoc) : Option Nat × ProblemsDB :=
  let stamped := stampRecord rec sysUser t1 t2
  if fault then (none, db)
  else if db.docs.any (fun d => d.2.externalId = stamped.externalId) then (none, db)
  else (some db.nextId, ⟨db.docs ++ [(db.nextId, stamped)], db.nextId + 1⟩)

/-- C5: both `MongoDBClient.insert_problem` implementations agree; a
successful insert appends exactly the stamped record (createdBy, createdAt,
updatedAt); a uniqueness violation on `externalId` returns null with the
store untouched; any other failure returns null with the store untouched;
every call leaves the previously stored documents as a prefix (append-only);
and re-inserting an already-stored `externalId` returns null and changes
nothing (first-write-wins). -/
theorem c5_insert_problem :
    (∀ db su t1 t2 f rec,
      insertProblemApi db su t1 t2 f rec = insertProblemLeet db su t1 t2 f rec) ∧
    (∀ db su t1 t2 rec id db',
      insertProblemApi db su t1 t2 false rec = (some id, db') →
      db'.docs = db.docs ++ [(id, stampRecord rec su t1 t2)]) ∧
    (∀ db su t1 t2 rec, (∃ d ∈ db.docs, d.2.externalId = rec.externalId) →
      insertProblemApi db su t1 t2 false rec = (none, db)) ∧
    (∀ db su t1 t2 rec, insertProblemApi db su t1 t2 true rec = (none, db)) ∧
    (∀ db su t1 t2 f rec, ∃ tail,
      (insertProblemApi db su t1 t2 f rec).2.docs = db.docs ++ tail) ∧
    (∀ db su t1 t2 t1' t2' f rec id db',
      insertProblemApi db su t1 t2 false rec = (some id, db') →
      insertProblemApi db' su t1' t2' f rec = (none, db')) := by
  refine ⟨fun db su t1 t2 f rec => rfl, ?_, ?_, ?_, ?_, ?_⟩
  · intro db su t1 t2 rec id db' h
    simp only [insertProblemApi, if_neg Bool.false_ne_true] at h
    by_cases hd : db.docs.any (fun d => d.2.externalId = (stampRecord rec su t1 t2).externalId)
    · rw [if_pos hd] at h; simp at h
    · rw [if_neg hd] at h
      have h1 : db.nextId = id := Option.some.inj (congrArg Prod.fst h)
      have h2 : (⟨db.docs ++ [(db.nextId, stampRecord rec su t1 t2)], db.nextId + 1⟩ :
          ProblemsDB) = db' := congrArg Prod.snd h
      subst h2
      rw [← h1]
  · intro db su t1 t2 rec hdup
    have hd : db.docs.any (fun d => d.2.externalId = (stampRecord rec su t1 t2).externalId) := by
      simp only [List.any_eq_true, decide_eq_true_eq]
      obtain ⟨d, hmem, he⟩ := hdup
      exact ⟨d, hmem, by simpa [stampRecord] using he⟩
    simp [insertProblemApi, hd]
  · intro db su t1 t2 rec
    simp [insertProblemApi]
  · intro db su t1 t2 f rec
    simp only [insertProblemApi]
    by_cases hf : f
    · exact ⟨[], by simp [hf]⟩
    · by_cases hd : db.docs.any (fun d => d.2.externalId = (stampRecord rec su t1 t2).externalId)
      · exact ⟨[], by simp [hf, hd]⟩
      · exact ⟨[(db.nextId, stampRecord rec su t1 t2)], by simp [hf, hd]⟩
  · intro db su t1 t2 t1' t2' f rec id db' h
    simp only [insertProblemApi, if_neg Bool.false_ne_true] at h
    by_cases hd : db.docs.any (fun d => d.2.externalId = (stampRecord rec su t1 t2).externalId)
    · rw [if_pos hd] at h; simp at h
    · rw [if_neg hd] at h
      have h2 : (⟨db.docs ++ [(db.nextId, stampRecord rec su t1 t2)], db.nextId + 1⟩ :
          ProblemsDB) = db' := congrArg Prod.snd h
      subst h2
      by_cases hf : f
      · simp [insertProblemApi, hf]
      · have : (⟨db.docs ++ [(db.nextId, stampRecord rec su t1 t2)], db.nextId + 1⟩ :
            ProblemsDB).docs.any
            (fun d => d.2.externalId = (stampRecord rec su t1' t2').externalId) := by
          simp [stampRecord]
        simp [insertProblemApi, hf, this]

/-- C5 witness: the duplicate-key and fault branches applied on a concrete
one-document store. -/
theorem c5_insert_problem_witness :
    insertProblemApi ⟨[(7, ⟨"cf_1_A", some 1, some 2, some 3, []⟩)], 8⟩ 1 4 5 false
        ⟨"cf_1_A", none, none, none, []⟩ =
      (none, ⟨[(7, ⟨"cf_1_A", some 1, some 2, some 3, []⟩)], 8⟩) :=
  c5_insert_problem.2.2.1 _ 1 4 5 _ ⟨(7, ⟨"cf_1_A", some 1, some 2, some 3, []⟩),
    by simp, rfl⟩

/-! ## C6 — CodeforcesClient._retry_request

`seed_problems.py` lines 297–347.  One attempt per loop iteration, at most
`max_retries` iterations.  Sleeps are recorded as exact rationals
`2^attempt * delay`.  A 4xx other than 404/429 reaches
`response.raise_for_status()`, whose `HTTPError` is a `RequestException`
and is caught by the last except branch. -/

/-- What one HTTP attempt produces: a response with a status code, or one
of the request exceptions. -/
inductive HttpAttempt
  | status (code : Nat)
  | timeout (msg : String)
  | connError (msg : String)
  | reqError (msg : String)
deriving Repr, DecidableEq

/-- The underlying causes recorded in `last_exception`. -/
inductive FetchError
  | timeout (msg : String)
  | connError (msg : String)
  | reqError (msg : String)
  | httpStatus (code : Nat)
deriving Repr, DecidableEq

/-- How `_retry_request` ends: a returned response (of a given attempt), the
immediately-raised 404 exception, or the final "Failed after N attempts"
exception carrying `last_exception`. -/
inductive RetryResult
  | ok (attempt : Nat)
  | notFound
  | exhausted (last : Option FetchError)
deriving Repr, DecidableEq

/-- Observable trace of `_retry_request`: its result, the `time.sleep`
durations in order, and the number of attempts issued. -/
structure RetryTrace where
  result : RetryResult
  sleeps : List ℚ
  attempts : Nat
deriving Repr, DecidableEq

/-- The retry loop of `_retry_request`, from attempt `i` with the current
`last_exception`.  429 and 5xx sleep `2^attempt * delay` and continue; 404
raises immediately (a plain `Exception`, caught by no except branch);
other 4xx raise `HTTPError` out of `raise_for_status`, caught as a
`RequestException`; `Timeout`/`ConnectionError` sleep and continue;
other `RequestException`s sleep only when attempts remain. -/
def retryAux (delay : ℚ) (outcomes : Nat → HttpAttempt) (maxRetries : Nat)
    (i : Nat) (last : Option FetchError) : RetryTrace :=
  if _h : i < maxRetries then
    match outcomes i with
    | .status c =>
      if c = 429 then
        let t := retryAux delay outcomes maxRetries (i + 1) last
        ⟨t.result, (2 ^ i : ℚ) * delay :: t.sleeps, t.attempts + 1⟩
      else if c = 404 then ⟨.notFound, [], 1⟩
      else if 500 ≤ c then
        let t := retryAux delay outcomes maxRetries (i + 1) last
        ⟨t.result, (2 ^ i : ℚ) * delay :: t.sleeps, t.attempts + 1⟩
      else if 400 ≤ c then
        let t := retryAux delay outcomes maxRetries (i + 1) (some (.httpStatus c))
        ⟨t.result, (if i < maxRetries - 1 then [(2 ^ i : ℚ) * delay] else []) ++ t.sleeps,
         t.attempts + 1⟩
      else ⟨.ok i, [], 1⟩
    | .timeout m =>
      let t := retryAux delay outcomes maxRetries (i + 1) (some (.timeout m))
      ⟨t.result, (2 ^ i : ℚ) * delay :: t.sleeps, t.attempts + 1⟩
    | .connError m =>
      let t := retryAux delay outcomes maxRetries (i + 1) (some (.connError m))
      ⟨t.result, (2 ^ i : ℚ) * delay :: t.sleeps, t.attempts + 1⟩
    | .reqError m =>
      let t := retryAux delay outcomes maxRetries (i + 1) (some (.reqError m))
      ⟨t.result, (if i < maxRetries - 1 then [(2 ^ i : ℚ) * delay] else []) ++ t.sleeps,
       t.attempts + 1⟩
  else ⟨.exhausted last, [], 0⟩
termination_by maxRetries - i

/-- `CodeforcesClient._retry_request`: the loop started at attempt 0 with no
recorded exception. -/
def retryRequest (delay : ℚ) (outcomes : Nat → HttpAttempt) (maxRetries : Nat) :
    RetryTrace :=
  retryAux delay outcomes maxRetries 0 none

theorem retryAux_429 (delay : ℚ) (outcomes : Nat → HttpAttempt) (maxRetries : Nat)
    (last : Option FetchError) (i : Nat)
    (h : ∀ j, i ≤ j → j < maxRetries → outcomes j = .status 429) :
    retryAux delay outcomes maxRetries i last =
      ⟨.exhausted last, (List.range' i (maxRetries - i)).map (fun j => (2 ^ j : ℚ) * delay),
       maxRetries - i⟩ := by
  by_cases hi : i < maxRetries
  · rw [retryAux, dif_pos hi, h i le_rfl hi]
    simp only [if_pos rfl]
    rw [retryAux_429 delay outcomes maxRetries last (i + 1) (fun j h1 h2 => h j (by omega) h2)]
    have hn : maxRetries - i = (maxRetries - (i + 1)) + 1 := by omega
    rw [hn, List.range'_succ]
    simp
  · rw [retryAux, dif_neg hi]
    have : maxRetries - i = 0 := by omega
    simp [this]
termination_by maxRetries - i

theorem retryAux_timeout (delay : ℚ) (outcomes : Nat → HttpAttempt) (maxRetries : Nat)
    (ms : Nat → String) (last : Option FetchError) (i : Nat) (hi : i < maxRetries)
    (h : ∀ j, i ≤ j → j < maxRetries → outcomes j = .timeout (ms j)) :
    retryAux delay outcomes maxRetries i last =
      ⟨.exhausted (some (.timeout (ms (maxRetries - 1)))),
       (List.range' i (maxRetries - i)).map (fun j => (2 ^ j : ℚ) * delay),
       maxRetries - i⟩ := by
  rw [retryAux, dif_pos hi, h i le_rfl hi]
  dsimp only
  by_cases hi1 : i + 1 < maxRetries
  · rw [retryAux_timeout delay outcomes maxRetries ms (some (.timeout (ms i))) (i + 1) hi1
      (fun j h1 h2 => h j (by omega) h2)]
    have hn : maxRetries - i = (maxRetries - (i + 1)) + 1 := by omega
    rw [hn, List.range'_succ]
    simp
  · rw [retryAux, dif_neg hi1]
    have hlastidx : maxRetries - 1 = i := by omega
    have hn : maxRetries - i = 1 := by omega
    rw [hlastidx]
    simp [hn, List.range'_succ]
termination_by maxRetries - i

/-- C6: the retry taxonomy of `_retry_request`.  All-429 runs sleep
`2^attempt * delay` before each retry, use exactly `maxRetries` attempts
and end in the exhaustion error (no underlying exception recorded, so the
cause is `none`); a 404 fails on the first attempt with no sleep and no
retry; a 5xx, a timeout or a connection error is retried after the same
`2^attempt * delay` backoff (here: first attempt fails so, second succeeds
after a single `2^0 * delay` sleep); and when every attempt times out the
exhaustion error carries the last attempt's underlying cause. -/
theorem c6_retry_request :
    (∀ (delay : ℚ) outcomes maxRetries,
      (∀ i, i < maxRetries → outcomes i = HttpAttempt.status 429) →
      retryRequest delay outcomes maxRetries =
        ⟨.exhausted none, (List.range maxRetries).map (fun i => (2 ^ i : ℚ) * delay),
         maxRetries⟩) ∧
    (∀ (delay : ℚ) outcomes maxRetries, 0 < maxRetries →
      outcomes 0 = HttpAttempt.status 404 →
      retryRequest delay outcomes maxRetries = ⟨.notFound, [], 1⟩) ∧
    (∀ (delay : ℚ) outcomes maxRetries (c : Nat) (m : String), 2 ≤ maxRetries →
      ((outcomes 0 = HttpAttempt.status c ∧ 500 ≤ c) ∨
        outcomes 0 = HttpAttempt.timeout m ∨ outcomes 0 = HttpAttempt.connError m) →
      outcomes 1 = HttpAttempt.status 200 →
      retryRequest delay outcomes maxRetries = ⟨.ok 1, [delay], 2⟩) ∧
    (∀ (delay : ℚ) outcomes maxRetries (ms : Nat → String), 0 < maxRetries →
      (∀ i, i < maxRetries → outcomes i = HttpAttempt.timeout (ms i)) →
      retryRequest delay outcomes maxRetries =
        ⟨.exhausted (some (.timeout (ms (maxRetries - 1)))),
         (List.range maxRetries).map (fun i => (2 ^ i : ℚ) * delay), maxRetries⟩) ∧
    (∀ (delay : ℚ) outcomes maxRetries, 2 ≤ maxRetries →
      outcomes 0 = HttpAttempt.status 429 → outcomes 1 = HttpAttempt.status 200 →
      retryRequest delay outcomes maxRetries = ⟨.ok 1, [delay], 2⟩) := by
  have hsucc : ∀ (delay : ℚ) (outcomes : Nat → HttpAttempt) maxRetries last,
      1 < maxRetries → outcomes 1 = HttpAttempt.status 200 →
      retryAux delay outcomes maxRetries 1 last = ⟨.ok 1, [], 1⟩ := by
    intro delay outcomes maxRetries last h1 ho
    rw [retryAux, dif_pos h1, ho]
    norm_num
  refine ⟨?_, ?_, ?_, ?_, ?_⟩
  · intro delay outcomes maxRetries h
    rw [retryRequest, retryAux_429 delay outcomes maxRetries none 0 (fun j _ hj => h j hj)]
    simp [List.range_eq_range']
  · intro delay outcomes maxRetries h0 ho
    rw [retryRequest, retryAux, dif_pos h0, ho]
    norm_num
  · intro delay outcomes maxRetries c m h2 hfirst ho1
    have h0 : 0 < maxRetries := by omega
    have h1 : 1 < maxRetries := by omega
    rcases hfirst with ⟨ho0, hc⟩ | ho0 | ho0
    · rw [retryRequest, retryAux, dif_pos h0, ho0]
      dsimp only
      rw [if_neg (by omega), if_neg (by omega), if_pos hc,
        hsucc delay outcomes maxRetries none h1 ho1]
      norm_num
    · rw [retryRequest, retryAux, dif_pos h0, ho0]
      dsimp only
      rw [hsucc delay outcomes maxRetries _ h1 ho1]
      norm_num
    · rw [retryRequest, retryAux, dif_pos h0, ho0]
      dsimp only
      rw [hsucc delay outcomes maxRetries _ h1 ho1]
      norm_num
  · intro delay outcomes maxRetries ms h0 h
    rw [retryRequest,
      retryAux_timeout delay outcomes maxRetries ms none 0 h0 (fun j _ hj => h j hj)]
    simp [List.range_eq_range']
  · intro delay outcomes maxRetries h2 ho0 ho1
    have h0 : 0 < maxRetries := by omega
    have h1 : 1 < maxRetries := by omega
    rw [retryRequest, retryAux, dif_pos h0, ho0]
    simp only [if_pos rfl]
    rw [hsucc delay outcomes maxRetries none h1 ho1]
    norm_num

/-- C6 witness: the taxonomy applied to concrete outcome schedules with
`delay = 1` and `maxRetries = 3` (all-429 exhaustion, immediate 404, and a
429 followed by a 200). -/
theorem c6_retry_request_witness :
    retryRequest 1 (fun _ => HttpAttempt.status 429) 3 =
      ⟨.exhausted none, (List.range 3).map (fun i => (2 ^ i : ℚ) * 1), 3⟩ ∧
    retryRequest 1 (fun _ => HttpAttempt.status 404) 3 = ⟨.notFound, [], 1⟩ ∧
    retryRequest 1 (fun i => if i = 0 then HttpAttempt.status 429 else HttpAttempt.status 200) 3 =
      ⟨.ok 1, [1], 2⟩ :=
  ⟨c6_retry_request.1 1 _ 3 (fun i _ => rfl),
   c6_retry_request.2.1 1 _ 3 (by omega) rfl,
   c6_retry_request.2.2.2.2 1 _ 3 (by omega) rfl rfl⟩

/-! ## C7 — CodeforcesClient._rate_limit / fetch_problem timing

`seed_problems.py` lines 285–295 and 349–373.  Wall-clock time is modelled
exactly as rationals.  `_rate_limit` compares `time.time() - last_request_time`
against `delay_seconds`, sleeps the difference if short, and then records
`last_request_time = time.time()` — i.e. *before* the request is issued.
A `fetch_problem` call is `(idle, dur)`: the idle time elapsed since the
previous call returned, and the duration of the HTTP request itself. -/

/-- Wall clock plus the client's `last_request_time` field
(initialised to 0 in `CodeforcesClient.__init__`). -/
structure ClockState where
  now : ℚ
  last : ℚ
deriving Repr, DecidableEq

/-- `CodeforcesClient._rate_limit`: sleep the remainder of `delay` measured
since `last_request_time`, then set `last_request_time` to the current time
(which is the moment the request is about to be issued). -/
def rateLimit (delay : ℚ) (st : ClockState) : ClockState :=
  let timeSinceLast := st.now - st.last
  let now' := if timeSinceLast < delay then st.now + (delay - timeSinceLast) else st.now
  { now := now', last := now' }

/-- Timing of one `fetch_problem` call: rate-limit, then issue the request,
which completes `dur` later.  Returns `(issueTime, completionTime)` and the
post-call clock state. -/
def fetchProblemTiming (delay : ℚ) (st : ClockState) (dur : ℚ) :
    (ℚ × ℚ) × ClockState :=
  let st' := rateLimit delay st
  ((st'.now, st'.now + dur), { now := st'.now + dur, last := st'.last })

/-- A sequence of `fetch_problem` calls: each `(idle, dur)` entry waits
`idle` after the previous call returned, then calls `fetch_problem` whose
request takes `dur`.  Produces the `(issue, completion)` times in order. -/
def runAux (delay : ℚ) (st : ClockState) : List (ℚ × ℚ) → List (ℚ × ℚ)
  | [] => []
  | (idle, dur) :: rest =>
    let r := fetchProblemTiming delay { st with now := st.now + idle } dur
    r.1 :: runAux delay r.2 rest

/-- The call sequence started at wall time `t0` with the client freshly
constructed (`last_request_time = 0`). -/
def runFetches (delay t0 : ℚ) (calls : List (ℚ × ℚ)) : List (ℚ × ℚ) :=
  runAux delay ⟨t0, 0⟩ calls

theorem rateLimit_now_ge (delay : ℚ) (st : ClockState) :
    st.last + delay ≤ (rateLimit delay st).now := by
  unfold rateLimit
  dsimp only
  by_cases h : st.now - st.last < delay
  · rw [if_pos h]; linarith
  · rw [if_neg h]; linarith

theorem rateLimit_last (delay : ℚ) (st : ClockState) :
    (rateLimit delay st).last = (rateLimit delay st).now := by
  unfold rateLimit
  dsimp only

theorem runAux_chain (delay : ℚ) (calls : List (ℚ × ℚ)) : ∀ st : ClockState,
    (runAux delay st calls).Chain' (fun a b => a.1 + delay ≤ b.1) ∧
    (∀ p ∈ (runAux delay st calls).head?, st.last + delay ≤ p.1) := by
  induction calls with
  | nil => intro st; simp [runAux]
  | cons c rest ih =>
    intro st
    obtain ⟨idle, dur⟩ := c
    have hstep : runAux delay st ((idle, dur) :: rest) =
        ((rateLimit delay { st with now := st.now + idle }).now,
         (rateLimit delay { st with now := st.now + idle }).now + dur) ::
        runAux delay
          ⟨(rateLimit delay { st with now := st.now + idle }).now + dur,
           (rateLimit delay { st with now := st.now + idle }).last⟩ rest := by
      simp [runAux, fetchProblemTiming]
    set st1 : ClockState := { st with now := st.now + idle }
    set iss := (rateLimit delay st1).now
    have hiss : st.last + delay ≤ iss := rateLimit_now_ge delay st1
    have hlast : (rateLimit delay st1).last = iss := rateLimit_last delay st1
    obtain ⟨ihchain, ihhead⟩ := ih ⟨iss + dur, (rateLimit delay st1).last⟩
    constructor
    · rw [hstep, List.chain'_cons']
      refine ⟨?_, ihchain⟩
      intro y hy
      have := ihhead y hy
      rw [hlast] at this
      simpa using this
    · intro p hp
      rw [hstep] at hp
      simp only [List.head?_cons, Option.mem_def, Option.some.injEq] at hp
      rw [← hp]
      exact hiss

/-- C7 counterexample: with `delay_seconds = 2`, a client constructed before
time 10, a first call at time 10 whose request takes 2, and a second call
made immediately after, the second request is issued at time 12 — the very
moment the first call completed — so the elapsed time from the previous
call's completion to the next request being issued is 0, not ≥ 2. -/
theorem c7_counterexample :
    runFetches 2 10 [(0, 2), (0, 1)] = [(10, 12), (12, 13)] ∧
    ¬ ((2 : ℚ) ≤ 12 - 12) := by
  constructor
  · norm_num [runFetches, runAux, fetchProblemTiming, rateLimit]
  · norm_num

/-- C7 amended: the fetcher enforces the minimum gap between the *issue
times* of consecutive requests — `last_request_time` is recorded at the end
of `_rate_limit`, just before the request is issued, not at the end of the
call — so for every pair of consecutive `fetch_problem` calls the next
request is issued at least `delay_seconds` after the previous request was
issued (the gap from the previous call's completion can be smaller, even
zero). -/
theorem c7_rate_limit_gap (delay t0 : ℚ) (calls : List (ℚ × ℚ)) :
    (runFetches delay t0 calls).Chain' (fun a b => a.1 + delay ≤ b.1) :=
  (runAux_chain delay calls ⟨t0, 0⟩).1

/-! ## C8 — sample-test extraction

`seed_problems.py` lines 647–677 (`ProblemParser._extract_test_cases`) and
`scrape_codeforces_full.py` lines 110–126.  An `input`/`output` block of the
`sample-test` container is modelled by the text of its `<pre>` child, `none`
when no (truthy) `<pre>` is found. -/

/-- An input or output block of the sample-test container. -/
structure SampleBlock where
  pre : Option String
deriving Repr, DecidableEq

/-- A test case as built by `ProblemParser._extract_test_cases`. -/
structure SampleTestCase where
  input : String
  output : String
  explanation : String
deriving Repr, DecidableEq

/-- A test case as built by `CodeforcesFullScraper.scrape_problem_details`
(no explanation field there). -/
structure ScrapedTestCase where
  input : String
  output : String
deriving Repr, DecidableEq

/-- The `for i, (input_div, output_div) in enumerate(zip(inputs, outputs))`
loop of `ProblemParser._extract_test_cases`: a missing `<pre>` yields the
empty string, and the explanation is `"Sample test {i+1}"`. -/
def extractTestCasesAux (k : Nat) :
    List SampleBlock → List SampleBlock → List SampleTestCase
  | inp :: ins, out :: outs =>
    { input := (inp.pre.map pyStrip).getD "",
      output := (out.pre.map pyStrip).getD "",
      explanation := "Sample test " ++ toString (k + 1) } ::
    extractTestCasesAux (k + 1) ins outs
  | _, _ => []

/-- `ProblemParser._extract_test_cases` on the input and output block lists
of the sample-test container. -/
def extractTestCases (inputs outputs : List SampleBlock) : List SampleTestCase :=
  extractTestCasesAux 0 inputs outputs

/-- The sample-test loop of `CodeforcesFullScraper.scrape_problem_details`:
`zip(inputs, outputs)`, keeping only the pairs where both blocks contain a
`<pre>` (`if input_pre and output_pre`). -/
def scrapeTestCasesFull (inputs outputs : List SampleBlock) : List ScrapedTestCase :=
  (inputs.zip outputs).filterMap (fun p =>
    match p.1.pre, p.2.pre with
    | some a, some b => some ⟨pyStrip a, pyStrip b⟩
    | _, _ => none)

/-- Index-based pairing, as the amended claim words it: `min(m, n)` cases,
the i-th built from the i-th input and i-th output blocks. -/
def pairedTestCasesSpec (inputs outputs : List SampleBlock) : List SampleTestCase :=
  (List.range (min inputs.length outputs.length)).map (fun i =>
    { input := ((inputs.getD i ⟨none⟩).pre.map pyStrip).getD "",
      output := ((outputs.getD i ⟨none⟩).pre.map pyStrip).getD "",
      explanation := "Sample test " ++ toString (i + 1) })

/-- C8 counterexample: a container with one input block lacking a `<pre>`
and one output block with one.  The claim says every implementation
produces exactly `min(1,1) = 1` test case, but the full scraper drops the
pair and produces none; `ProblemParser` does produce one (with an empty
input and the default explanation). -/
theorem c8_counterexample :
    scrapeTestCasesFull [⟨none⟩] [⟨some "1"⟩] = [] ∧
    min 1 1 = 1 ∧
    extractTestCases [⟨none⟩] [⟨some "1"⟩] = [⟨"", "1", "Sample test 1"⟩] := by
  refine ⟨rfl, rfl, ?_⟩
  decide

theorem extractTestCasesAux_eq (ins : List SampleBlock) : ∀ (k : Nat)
    (outs : List SampleBlock),
    extractTestCasesAux k ins outs =
      (List.range (min ins.length outs.length)).map (fun i =>
        { input := ((ins.getD i ⟨none⟩).pre.map pyStrip).getD "",
          output := ((outs.getD i ⟨none⟩).pre.map pyStrip).getD "",
          explanation := "Sample test " ++ toString (k + i + 1) }) := by
  induction ins with
  | nil => intro k outs; simp [extractTestCasesAux]
  | cons inp ins ih =>
    intro k outs
    cases outs with
    | nil => simp [extractTestCasesAux]
    | cons out outs =>
      rw [extractTestCasesAux, ih (k + 1) outs]
      have hmin : min (inp :: ins).length (out :: outs).length =
          (min ins.length outs.length) + 1 := by
        simp [Nat.succ_min_succ]
      rw [hmin, List.range_succ_eq_map, List.map_cons, List.map_map]
      have hfun : (fun i =>
          ({ input := ((ins.getD i ⟨none⟩).pre.map pyStrip).getD "",
             output := ((outs.getD i ⟨none⟩).pre.map pyStrip).getD "",
             explanation := "Sample test " ++ toString (k + 1 + i + 1) } : SampleTestCase)) =
          ((fun i =>
          ({ input := (((inp :: ins).getD i ⟨none⟩).pre.map pyStrip).getD "",
             output := (((out :: outs).getD i ⟨none⟩).pre.map pyStrip).getD "",
             explanation := "Sample test " ++ toString (k + i + 1) } : SampleTestCase)) ∘
            Nat.succ) := by
        funext i
        simp only [Function.comp_apply, List.getD_cons_succ]
        have harg : k + 1 + i + 1 = k + (i + 1) + 1 := by omega
        rw [harg]
      rw [hfun]
      simp

theorem filterMap_zip_all_some (l : List (SampleBlock × SampleBlock))
    (h : ∀ p ∈ l, p.1.pre ≠ none ∧ p.2.pre ≠ none) :
    (l.filterMap (fun p =>
      match p.1.pre, p.2.pre with
      | some a, some b => some (⟨pyStrip a, pyStrip b⟩ : ScrapedTestCase)
      | _, _ => none)).length = l.length := by
  induction l with
  | nil => simp
  | cons p l ih =>
    obtain ⟨h1, h2⟩ := h p (by simp)
    obtain ⟨a, ha⟩ := Option.ne_none_iff_exists'.mp h1
    obtain ⟨b, hb⟩ := Option.ne_none_iff_exists'.mp h2
    rw [List.filterMap_cons, ha, hb]
    simpa using ih (fun q hq => h q (by simp [hq]))

/-- C8 amended: `ProblemParser._extract_test_cases` produces exactly
`min(m, n)` test cases, in source order, the i-th taking the i-th input's
and the i-th output's `<pre>` text (empty string when the `<pre>` is
missing) with explanation `"Sample test {i+1}"`; the full scraper's loop
instead keeps only the zipped pairs in which *both* blocks contain a
`<pre>` — so it produces at most `min(m, n)` cases, and exactly `min(m, n)`
when every block has one — and records no explanation. -/
theorem c8_sample_pairing :
    (∀ ins outs, extractTestCases ins outs = pairedTestCasesSpec ins outs) ∧
    (∀ ins outs, (extractTestCases ins outs).length = min ins.length outs.length) ∧
    (∀ ins outs, (scrapeTestCasesFull ins outs).length ≤ min ins.length outs.length) ∧
    (∀ ins outs, (∀ b ∈ ins, b.pre ≠ none) → (∀ b ∈ outs, b.pre ≠ none) →
      (scrapeTestCasesFull ins outs).length = min ins.length outs.length) := by
  have hspec : ∀ ins outs, extractTestCases ins outs = pairedTestCasesSpec ins outs := by
    intro ins outs
    rw [extractTestCases, extractTestCasesAux_eq ins 0 outs, pairedTestCasesSpec]
    simp only [Nat.zero_add]
  refine ⟨hspec, ?_, ?_, ?_⟩
  · intro ins outs
    rw [hspec, pairedTestCasesSpec]
    simp
  · intro ins outs
    calc (scrapeTestCasesFull ins outs).length
        ≤ (ins.zip outs).length := List.length_filterMap_le _ _
      _ = min ins.length outs.length := List.length_zip ..
  · intro ins outs hin hout
    rw [scrapeTestCasesFull, filterMap_zip_all_some _ (fun p hp =>
      ⟨hin p.1 (List.of_mem_zip hp).1, hout p.2 (List.of_mem_zip hp).2⟩)]
    exact List.length_zip ..

/-- C8 witness: the all-`<pre>` equality applied on concrete two-input /
three-output block lists. -/
theorem c8_sample_pairing_witness :
    (scrapeTestCasesFull [⟨some "1 2"⟩, ⟨some "3"⟩]
      [⟨some "3"⟩, ⟨some "3"⟩, ⟨some "4"⟩]).length = min 2 3 :=
  c8_sample_pairing.2.2.2 [⟨some "1 2"⟩, ⟨some "3"⟩]
    [⟨some "3"⟩, ⟨some "3"⟩, ⟨some "4"⟩]
    (by intro b hb; fin_cases hb <;> simp)
    (by intro b hb; fin_cases hb <;> simp)

/-! ## C10 — ProblemTransformer._parse_test_cases

`seed_leetcode.py` lines 390–407: strip the `exampleTestcases` string, split
on newlines, pair consecutive lines as input/output (a trailing unpaired
line is dropped), explanation `"Example {n}"` with `n` the running count. -/

/-- A LeetCode example test case. -/
structure LCTestCase where
  input : String
  output : String
  explanation : String
deriving Repr, DecidableEq

/-- The `for i in range(0, len(lines), 2)` pairing loop;
`k` is `len(test_cases)` so far. -/
def parseTestCasesAux (k : Nat) : List String → List LCTestCase
  | a :: b :: rest =>
    { input := pyStrip a, output := pyStrip b,
      explanation := "Example " ++ toString (k + 1) } :: parseTestCasesAux (k + 1) rest
  | _ => []

/-- `ProblemTransformer._parse_test_cases`: empty (falsy) string gives `[]`,
otherwise strip, split on newlines, pair up. -/
def parseTestCases (exampleTests : String) : List LCTestCase :=
  if exampleTests = "" then []
  else parseTestCasesAux 0 ((pyStrip exampleTests).splitOn "\n")

/-- Index-based description of the pairing: `⌊n/2⌋` cases, the k-th built
from lines `2k` and `2k+1`, each stripped again. -/
def pairedLinesSpec (lines : List String) : List LCTestCase :=
  (List.range (lines.length / 2)).map (fun k =>
    { input := pyStrip (lines.getD (2 * k) ""),
      output := pyStrip (lines.getD (2 * k + 1) ""),
      explanation := "Example " ++ toString (k + 1) })

theorem parseTestCasesAux_eq : ∀ (lines : List String) (k : Nat),
    parseTestCasesAux k lines =
      (List.range (lines.length / 2)).map (fun j =>
        { input := pyStrip (lines.getD (2 * j) ""),
          output := pyStrip (lines.getD (2 * j + 1) ""),
          explanation := "Example " ++ toString (k + j + 1) })
  | [], k => by simp [parseTestCasesAux]
  | [a], k => by simp [parseTestCasesAux]
  | a :: b :: rest, k => by
    rw [show parseTestCasesAux k (a :: b :: rest) =
        ({ input := pyStrip a, output := pyStrip b,
           explanation := "Example " ++ toString (k + 1) } :: parseTestCasesAux (k + 1) rest)
      from rfl]
    rw [parseTestCasesAux_eq rest (k + 1)]
    have hlen : (a :: b :: rest).length / 2 = rest.length / 2 + 1 := by
      simp only [List.length_cons]
      omega
    rw [hlen, List.range_succ_eq_map, List.map_cons, List.map_map]
    have hfun : (fun j =>
        ({ input := pyStrip (rest.getD (2 * j) ""),
           output := pyStrip (rest.getD (2 * j + 1) ""),
           explanation := "Example " ++ toString (k + 1 + j + 1) } : LCTestCase)) =
        ((fun j =>
        ({ input := pyStrip ((a :: b :: rest).getD (2 * j) ""),
           output := pyStrip ((a :: b :: rest).getD (2 * j + 1) ""),
           explanation := "Example " ++ toString (k + j + 1) } : LCTestCase)) ∘
          Nat.succ) := by
      funext j
      simp only [Function.comp_apply]
      rw [show 2 * Nat.succ j = 2 * j + 1 + 1 from by omega,
        show 2 * j + 1 + 1 + 1 = 2 * j + 1 + 1 + 1 from rfl]
      simp only [List.getD_cons_succ]
      have harg : k + 1 + j + 1 = k + Nat.succ j + 1 := by omega
      rw [harg]
    rw [hfun]
    simp

/-- C10: parsing the LeetCode `exampleTestcases` string pairs consecutive
lines as input/output: a non-empty string is stripped and split on newlines
into `n` lines; exactly `⌊n/2⌋` test cases result, the k-th taking the
stripped lines `2k` and `2k+1` (a trailing unpaired line is discarded, and
the explanation is `"Example {k+1}"`); the empty string yields no cases. -/
theorem c10_parse_test_cases :
    (∀ s : String, s ≠ "" →
      parseTestCases s = pairedLinesSpec ((pyStrip s).splitOn "\n")) ∧
    parseTestCases "" = [] ∧
    (∀ s : String, s ≠ "" →
      (parseTestCases s).length = ((pyStrip s).splitOn "\n").length / 2) := by
  have hmain : ∀ s : String, s ≠ "" →
      parseTestCases s = pairedLinesSpec ((pyStrip s).splitOn "\n") := by
    intro s hs
    rw [parseTestCases, if_neg hs, parseTestCasesAux_eq, pairedLinesSpec]
    simp only [Nat.zero_add]
  refine ⟨hmain, rfl, ?_⟩
  intro s hs
  rw [hmain s hs, pairedLinesSpec]
  simp

/-- C10 witness: the pairing applied to a concrete three-line string — one
pair plus a discarded trailing line. -/
theorem c10_parse_test_cases_witness :
    parseTestCases "1 2\n3\nx" =
      pairedLinesSpec ((pyStrip "1 2\n3\nx").splitOn "\n") :=
  c10_parse_test_cases.1 "1 2\n3\nx" (by decide)

/-! ## C9 — LeetCodeCompleteScraper.parse_html_content

`scrape_leetcode_complete.py` lines 124–220.  Two stages:

1. `ContentParser` (an `html.parser.HTMLParser` subclass) turns the HTML
   fragment into text.  The stdlib parser is modelled by a character-level
   tokenizer producing open/close/text tokens (tag names lowercased,
   attributes dropped), folded through the parser's
   `handle_starttag` / `handle_endtag` / `handle_data` state machine.
2. The regex segmentation over the resulting `full_text`.  The patterns
   `Example \d+:`, `Input:`, `Output:`, `Explanation:`, `Constraints?:`
   (all `re.IGNORECASE`, `re.DOTALL`) are modelled by explicit
   case-insensitive matchers; a lazy group with lookahead
   `(.*?)(?=A|B|$)` is the prefix up to the first position where the
   lookahead matches, else the whole remainder.  (The `$`-before-trailing-
   newline subtlety of Python `re` is erased by the `.strip()` applied to
   every captured group.) -/

/-- Case-insensitive character comparison (`re.IGNORECASE`). -/
def charMatchCI (a b : Char) : Bool := a.toLower = b.toLower

/-- Match a literal case-insensitively at the head; return the remainder. -/
def matchLitCI : List Char → List Char → Option (List Char)
  | [], cs => some cs
  | _ :: _, [] => none
  | l :: ls, c :: cs => if charMatchCI l c then matchLitCI ls cs else none

/-- Match `\d+` greedily at the head; return the remainder. -/
def matchDigits1 : List Char → Option (List Char)
  | [] => none
  | c :: cs => if c.isDigit then some (cs.dropWhile Char.isDigit) else none

/-- Match the anchor `Example \d+:` at the head; return the remainder. -/
def matchExampleAnchor (cs : List Char) : Option (List Char) :=
  match matchLitCI "example ".data cs with
  | none => none
  | some r1 =>
    match matchDigits1 r1 with
    | none => none
    | some r2 =>
      match r2 with
      | ':' :: rest => some rest
      | _ => none

/-- Match the literal `Constraints:` (plural only — the lookahead inside the
example pattern) at the head. -/
def matchConstraintsPl (cs : List Char) : Option (List Char) :=
  matchLitCI "constraints:".data cs

/-- Match `Constraints?:` (optional `s` — the form used for the constraints
block and the description lookahead) at the head. -/
def matchConstraintsOpt (cs : List Char) : Option (List Char) :=
  match matchLitCI "constraint".data cs with
  | none => none
  | some r =>
    match r with
    | c :: rest =>
      if charMatchCI 's' c then
        match rest with
        | c2 :: rest2 => if c2 = ':' then some rest2 else none
        | [] => none
      else if c = ':' then some rest else none
    | [] => none

/-- First index `i` such that the predicate holds on the suffix starting
at `i` (the scan performed by `re.search` / `re.finditer`). -/
def findFirstIdx (q : List Char → Bool) : List Char → Option Nat
  | [] => if q [] then some 0 else none
  | c :: cs => if q (c :: cs) then some 0 else (findFirstIdx q cs).map (· + 1)

/-- Split at the first position where the lookahead matches: the lazy group
`(.*?)(?=…|$)` and the remainder from the lookahead position. -/
def takeUntil (q : List Char → Bool) (cs : List Char) : List Char × List Char :=
  match findFirstIdx q cs with
  | some i => (cs.take i, cs.drop i)
  | none => (cs, [])

/-- The lookahead of the example pattern: `(?=Example \d+:|Constraints:|$)`. -/
def isAnchorEx (t : List Char) : Bool :=
  (matchExampleAnchor t).isSome || (matchConstraintsPl t).isSome

/-- The lookahead of the description pattern:
`(?=Example \d+:|Constraints?:|$)`. -/
def isAnchorED (t : List Char) : Bool :=
  (matchExampleAnchor t).isSome || (matchConstraintsOpt t).isSome

/-- `re.finditer(r'Example \d+:(.*?)(?=Example \d+:|Constraints:|$)', …)`:
repeatedly find the next `Example \d+:` anchor, capture up to the next
anchor position, continue from there.  Each iteration consumes at least the
10-character anchor, so `cs.length` fuel never runs out
(`exampleLoopFuel_congr` below). -/
def exampleLoopFuel : Nat → List Char → List (List Char)
  | 0, _ => []
  | fuel + 1, cs =>
    match findFirstIdx (fun t => (matchExampleAnchor t).isSome) cs with
    | none => []
    | some i =>
      match matchExampleAnchor (cs.drop i) with
      | none => []
      | some afterAnchor =>
        (takeUntil isAnchorEx afterAnchor).1 ::
          exampleLoopFuel fuel (takeUntil isAnchorEx afterAnchor).2

/-- The example bodies (raw capture groups), in source order. -/
def exampleBlocks (cs : List Char) : List (List Char) :=
  exampleLoopFuel cs.length cs

/-- One parsed example: the `input` / `output` / `explanation` keys are
present only when the corresponding label was found. -/
structure LCExample where
  input : Option String
  output : Option String
  explanation : Option String
deriving Repr, DecidableEq

/-- `re.search` for a label: the first occurrence of the literal,
case-insensitively; returns the text after the label. -/
def searchLabel (lit : String) (cs : List Char) : Option (List Char) :=
  match findFirstIdx (fun t => (matchLitCI lit.data t).isSome) cs with
  | some i => matchLitCI lit.data (cs.drop i)
  | none => none

/-- The Input/Output/Explanation extraction applied to one (stripped)
example body: `Input:` is cut at `Output:` (or end), `Output:` at
`Explanation:` (or end), `Explanation:` runs to the end; each group is
stripped. -/
def parseExampleBody (body : List Char) : LCExample :=
  { input := (searchLabel "input:" body).map (fun r =>
      pyStrip ⟨(takeUntil (fun t => (matchLitCI "output:".data t).isSome) r).1⟩),
    output := (searchLabel "output:" body).map (fun r =>
      pyStrip ⟨(takeUntil (fun t => (matchLitCI "explanation:".data t).isSome) r).1⟩),
    explanation := (searchLabel "explanation:" body).map (fun r => pyStrip ⟨r⟩) }

/-- `if example: examples.append(example)` — the dict is kept only when at
least one sub-field matched; the body is stripped before field search. -/
def exampleFromBody (body : List Char) : Option LCExample :=
  let e := parseExampleBody (pyStrip ⟨body⟩).data
  if e.input.isNone && e.output.isNone && e.explanation.isNone then none else some e

/-- Python `str.split('\n')`: split at every newline; `""` gives `[""]`. -/
def splitOnNl : List Char → List (List Char)
  | [] => [[]]
  | c :: cs =>
    if c = '\n' then [] :: splitOnNl cs
    else
      match splitOnNl cs with
      | [] => [[c]]
      | h :: t => (c :: h) :: t

/-- `re.search(r'Constraints?:(.*?)(?=\n\n|$)', …)` plus the line cleanup:
split on newlines, strip, drop empties, strip each line of leading
`•`/`-`/`*` bullets and strip again. -/
def extractConstraints (full : List Char) : List String :=
  match findFirstIdx (fun t => (matchConstraintsOpt t).isSome) full with
  | none => []
  | some i =>
    match matchConstraintsOpt (full.drop i) with
    | none => []
    | some r =>
      let grp := (takeUntil (fun t => (matchLitCI "\n\n".data t).isSome) r).1
      let constraintLines :=
        ((splitOnNl (pyStrip ⟨grp⟩).data).map (fun l => pyStrip ⟨l⟩)).filter (· ≠ "")
      constraintLines.map (fun l =>
        pyStrip ⟨l.data.dropWhile (fun c => c = '•' || c = '-' || c = '*')⟩)

/-- The result record of `parse_html_content`. -/
structure ParsedContent where
  description : String
  examples : List LCExample
  constraints : List String
deriving Repr, DecidableEq

/-- The regex segmentation stage of `parse_html_content`, applied to the
converted `full_text`: description is everything before the first
`Example \d+:` / `Constraints?:` anchor, stripped. -/
def segmentText (full : String) : ParsedContent :=
  { description := pyStrip ⟨(takeUntil isAnchorED full.data).1⟩,
    examples := (exampleBlocks full.data).filterMap exampleFromBody,
    constraints := extractConstraints full.data }

/-- HTML tokens delivered to the `ContentParser` callbacks. -/
inductive HTok
  | openTag (name : String)
  | closeTag (name : String)
  | text (data : String)
deriving Repr, DecidableEq

/-- Tokenizer mode: inside a text run, just after a `<`, inside a `<…>`
tag, or inside a `<!…>`/`<?…>` declaration. -/
inductive TokMode
  | text
  | ltSeen
  | tag
  | decl
deriving Repr, DecidableEq

/-- Tokenizer state. -/
structure TokState where
  mode : TokMode
  acc : List Char
  toks : List HTok
deriving Repr, DecidableEq

/-- One character of the HTML tokenizer modelling CPython's `html.parser`
`goahead` loop for markup without entity references: text is delivered in
chunks cut at `<`; a `<` followed by a letter opens a start tag, `</` an
end tag, `<!`/`<?` a declaration (consumed silently), and any other `<` is
emitted as literal text data; `>` closes a tag, whose name is lowercased
with attributes after the first space dropped. -/
def tokChar (st : TokState) (c : Char) : TokState :=
  match st.mode with
  | .text =>
    if c = '<' then
      { mode := .ltSeen, acc := [],
        toks := st.toks ++ (if st.acc.isEmpty then [] else [HTok.text ⟨st.acc⟩]) }
    else { st with acc := st.acc ++ [c] }
  | .ltSeen =>
    if c.isAlpha then { st with mode := .tag, acc := [c] }
    else if c = '/' then { st with mode := .tag, acc := ['/'] }
    else if c = '!' || c = '?' then { st with mode := .decl, acc := [] }
    else if c = '<' then { st with toks := st.toks ++ [HTok.text "<"] }
    else { mode := .text, acc := [c], toks := st.toks ++ [HTok.text "<"] }
  | .tag =>
    if c = '>' then
      let tok := if st.acc.head? = some '/' then
          HTok.closeTag ⟨((st.acc.drop 1).takeWhile (fun c => c ≠ ' ')).map Char.toLower⟩
        else
          HTok.openTag ⟨(st.acc.takeWhile (fun c => c ≠ ' ' && c ≠ '/')).map Char.toLower⟩
      { mode := .text, acc := [], toks := st.toks ++ [tok] }
    else { st with acc := st.acc ++ [c] }
  | .decl =>
    if c = '>' then { mode := .text, acc := [], toks := st.toks }
    else st

/-- Tokenize an HTML fragment; a trailing text run (or lone `<`) is
flushed, an unterminated tag is buffered (dropped), as in `html.parser`. -/
def tokenizeHtml (cs : List Char) : List HTok :=
  let st := cs.foldl tokChar ⟨.text, [], []⟩
  st.toks ++ (match st.mode with
    | .text => if st.acc.isEmpty then [] else [HTok.text ⟨st.acc⟩]
    | .ltSeen => [HTok.text "<"]
    | .tag => []
    | .decl => [])

/-- `ContentParser` state: `text_parts`, `in_pre`, `in_strong`,
`current_text`. -/
structure CPState where
  textParts : List String
  inPre : Bool
  inStrong : Bool
  current : List String
deriving Repr, DecidableEq

/-- `ContentParser.handle_starttag`. -/
def cpStart (st : CPState) (t : String) : CPState :=
  if t = "pre" then { st with inPre := true }
  else if t = "strong" then { st with inStrong := true }
  else if t = "p" || t = "div" then
    if st.current.isEmpty then st
    else { st with textParts := st.textParts ++ [pyStrip (String.join st.current)],
                   current := [] }
  else st

/-- `ContentParser.handle_endtag`. -/
def cpEnd (st : CPState) (t : String) : CPState :=
  if t = "pre" then
    if st.current.isEmpty then { st with inPre := false }
    else { st with inPre := false,
                   textParts := st.textParts ++
                     ["```\n" ++ pyStrip (String.join st.current) ++ "\n```"],
                   current := [] }
  else if t = "strong" then { st with inStrong := false }
  else st

/-- `ContentParser.handle_data`: keep only runs whose strip is non-empty,
wrapping in `**…**` inside `<strong>`. -/
def cpData (st : CPState) (d : String) : CPState :=
  if pyStrip d = "" then st
  else { st with current :=
    st.current ++ [if st.inStrong then "**" ++ d ++ "**" else d] }

/-- `ContentParser.get_text`: flush the pending run, join parts with blank
lines. -/
def cpGetText (st : CPState) : String :=
  String.intercalate "\n\n"
    (if st.current.isEmpty then st.textParts
     else st.textParts ++ [pyStrip (String.join st.current)])

/-- Feed the token stream through the `ContentParser` callbacks. -/
def runContentParser (toks : List HTok) : String :=
  cpGetText (toks.foldl (fun st tok =>
    match tok with
    | .openTag t => cpStart st t
    | .closeTag t => cpEnd st t
    | .text d => cpData st d) ⟨[], false, false, []⟩)

/-- `LeetCodeCompleteScraper.parse_html_content`: falsy content gives the
empty record, otherwise convert the markup to text and segment it. -/
def parseHtmlContent (htmlContent : String) : ParsedContent :=
  if htmlContent = "" then ⟨"", [], []⟩
  else segmentText (runContentParser (tokenizeHtml htmlContent.data))

theorem matchLitCI_length : ∀ (lit cs r : List Char),
    matchLitCI lit cs = some r → r.length + lit.length = cs.length := by
  intro lit
  induction lit with
  | nil =>
    intro cs r h
    simp [matchLitCI] at h
    subst h
    simp
  | cons l ls ih =>
    intro cs r h
    cases cs with
    | nil => simp [matchLitCI] at h
    | cons c cs =>
      rw [matchLitCI] at h
      by_cases hm : charMatchCI l c
      · rw [if_pos hm] at h
        have := ih cs r h
        simp only [List.length_cons]
        omega
      · rw [if_neg hm] at h
        simp at h

theorem matchDigits1_length (cs r : List Char) (h : matchDigits1 cs = some r) :
    r.length < cs.length := by
  cases cs with
  | nil => simp [matchDigits1] at h
  | cons c cs =>
    rw [matchDigits1] at h
    by_cases hd : c.isDigit
    · rw [if_pos hd] at h
      have hsub : (cs.dropWhile Char.isDigit).Sublist cs := List.dropWhile_sublist _
      have := hsub.length_le
      have hr : cs.dropWhile Char.isDigit = r := by simpa using h
      subst hr
      simp only [List.length_cons]
      omega
    · rw [if_neg hd] at h
      simp at h

theorem matchExampleAnchor_length (cs r : List Char)
    (h : matchExampleAnchor cs = some r) : r.length + 10 ≤ cs.length := by
  simp only [matchExampleAnchor] at h
  split at h
  · simp at h
  rename_i r1 hm1
  split at h
  · simp at h
  rename_i r2 hm2
  split at h
  · rename_i rest
    have hr : rest = r := by simpa using h
    subst hr
    have l1 := matchLitCI_length _ _ _ hm1
    have l2 := matchDigits1_length _ _ hm2
    have l8 : ("example ".data).length = 8 := rfl
    rw [l8] at l1
    simp only [List.length_cons] at l2
    omega
  · simp at h

theorem takeUntil_snd_le (q : List Char → Bool) (cs : List Char) :
    (takeUntil q cs).2.length ≤ cs.length := by
  rw [takeUntil]
  cases h : findFirstIdx q cs with
  | none => simp
  | some i => simp [List.length_drop]

theorem exampleLoopFuel_succ_none (f : Nat) (cs : List Char)
    (h : findFirstIdx (fun t => (matchExampleAnchor t).isSome) cs = none) :
    exampleLoopFuel (f + 1) cs = [] := by
  simp only [exampleLoopFuel, h]

theorem exampleLoopFuel_succ_stuck (f : Nat) (cs : List Char) (i : Nat)
    (hfind : findFirstIdx (fun t => (matchExampleAnchor t).isSome) cs = some i)
    (hm : matchExampleAnchor (cs.drop i) = none) :
    exampleLoopFuel (f + 1) cs = [] := by
  simp only [exampleLoopFuel, hfind, hm]

theorem exampleLoopFuel_succ_some (f : Nat) (cs : List Char) (i : Nat)
    (afterAnchor : List Char)
    (hfind : findFirstIdx (fun t => (matchExampleAnchor t).isSome) cs = some i)
    (hm : matchExampleAnchor (cs.drop i) = some afterAnchor) :
    exampleLoopFuel (f + 1) cs =
      (takeUntil isAnchorEx afterAnchor).1 ::
        exampleLoopFuel f (takeUntil isAnchorEx afterAnchor).2 := by
  simp only [exampleLoopFuel, hfind, hm]

/-- The example loop's fuel is irrelevant once it is at least `cs.length`:
each iteration consumes the ≥ 10-character anchor, so the Python
`re.finditer` loop and the fuelled model agree. -/
theorem exampleLoopFuel_congr (cs : List Char) : ∀ (fuel fuel' : Nat),
    cs.length ≤ fuel → cs.length ≤ fuel' →
    exampleLoopFuel fuel cs = exampleLoopFuel fuel' cs := by
  intro fuel fuel' hf hf'
  have hnil : ∀ f : Nat, exampleLoopFuel f ([] : List Char) = [] := by
    intro f
    cases f with
    | zero => rfl
    | succ f => exact exampleLoopFuel_succ_none f [] rfl
  cases fuel with
  | zero =>
    have hcs : cs = [] := List.eq_nil_of_length_eq_zero (by omega)
    subst hcs
    rw [hnil, hnil]
  | succ f =>
    cases fuel' with
    | zero =>
      have hcs : cs = [] := List.eq_nil_of_length_eq_zero (by omega)
      subst hcs
      rw [hnil, hnil]
    | succ f' =>
      cases hfind : findFirstIdx (fun t => (matchExampleAnchor t).isSome) cs with
      | none =>
        rw [exampleLoopFuel_succ_none f cs hfind, exampleLoopFuel_succ_none f' cs hfind]
      | some i =>
        cases hm : matchExampleAnchor (cs.drop i) with
        | none =>
          rw [exampleLoopFuel_succ_stuck f cs i hfind hm,
            exampleLoopFuel_succ_stuck f' cs i hfind hm]
        | some afterAnchor =>
          have h1 : (takeUntil isAnchorEx afterAnchor).2.length ≤ afterAnchor.length :=
            takeUntil_snd_le _ _
          have h2 : afterAnchor.length + 10 ≤ (cs.drop i).length :=
            matchExampleAnchor_length _ _ hm
          have h3 : (cs.drop i).length ≤ cs.length := by
            simp only [List.length_drop]
            omega
          rw [exampleLoopFuel_succ_some f cs i afterAnchor hfind hm,
            exampleLoopFuel_succ_some f' cs i afterAnchor hfind hm,
            exampleLoopFuel_congr (takeUntil isAnchorEx afterAnchor).2 f f'
              (by omega) (by omega)]
termination_by cs.length
decreasing_by
  simp only [List.length_drop] at h2 h3
  omega

theorem findFirstIdx_eq_none_iff (q : List Char → Bool) : ∀ cs : List Char,
    findFirstIdx q cs = none ↔ ∀ i, q (cs.drop i) = false := by
  intro cs
  induction cs with
  | nil =>
    by_cases hq : q []
    · rw [findFirstIdx, if_pos hq]
      simp only [List.drop_nil]
      constructor
      · intro h; simp at h
      · intro h; have := h 0; rw [hq] at this; simp at this
    · rw [findFirstIdx, if_neg hq]
      simp only [List.drop_nil]
      constructor
      · intro _ _; simpa using hq
      · intro _; trivial
  | cons c cs ih =>
    by_cases hq : q (c :: cs)
    · rw [findFirstIdx, if_pos hq]
      constructor
      · intro h; simp at h
      · intro h
        have h0 := h 0
        rw [List.drop_zero, hq] at h0
        simp at h0
    · rw [findFirstIdx, if_neg hq]
      rw [Option.map_eq_none']
      rw [ih]
      constructor
      · intro h i
        cases i with
        | zero => rw [List.drop_zero]; simpa using hq
        | succ i => rw [List.drop_succ_cons]; exact h i
      · intro h i
        have := h (i + 1)
        rwa [List.drop_succ_cons] at this

set_option maxRecDepth 65536 in
/-- C9: on the spec's end-to-end scenario content
`"<p>Find X</p>Example 1:\nInput: [1,2]\nOutput: 3\nConstraints:\n- 1<=n<=100"`,
`parse_html_content` returns description `"Find X"`, one example with input
`"[1,2]"` and output `"3"` (no explanation key), and constraints
`["1<=n<=100"]`; and on any converted text in which no `Example \d+:` and
no `Constraints?:` anchor matches at any position, the segmentation yields
empty examples and empty constraints — never an error — with the
description being the whole text, stripped. -/
theorem c9_parse_html_content :
    parseHtmlContent
        "<p>Find X</p>Example 1:\nInput: [1,2]\nOutput: 3\nConstraints:\n- 1<=n<=100" =
      { description := "Find X",
        examples := [{ input := some "[1,2]", output := some "3", explanation := none }],
        constraints := ["1<=n<=100"] } ∧
    (∀ s : String,
      findFirstIdx (fun t => (matchExampleAnchor t).isSome) s.data = none →
      findFirstIdx (fun t => (matchConstraintsOpt t).isSome) s.data = none →
      (segmentText s).examples = [] ∧ (segmentText s).constraints = [] ∧
      (segmentText s).description = pyStrip s) := by
  constructor
  · rfl
  · intro s h1 h2
    refine ⟨?_, ?_, ?_⟩
    · show (exampleBlocks s.data).filterMap exampleFromBody = []
      have hblocks : exampleBlocks s.data = [] := by
        unfold exampleBlocks
        cases hl : s.data.length with
        | zero => rfl
        | succ n => exact exampleLoopFuel_succ_none n s.data h1
      rw [hblocks]
      rfl
    · show extractConstraints s.data = []
      simp only [extractConstraints, h2]
    · show pyStrip ⟨(takeUntil isAnchorED s.data).1⟩ = pyStrip s
      have hnone : findFirstIdx isAnchorED s.data = none := by
        rw [findFirstIdx_eq_none_iff]
        intro i
        have e1 := (findFirstIdx_eq_none_iff _ s.data).mp h1 i
        have e2 := (findFirstIdx_eq_none_iff _ s.data).mp h2 i
        simp only [isAnchorED, e1, e2]
        rfl
      simp only [takeUntil, hnone]

/-- C9 witness: the no-anchor fallback applied to the concrete anchor-free
text `"Just a plain statement."`. -/
theorem c9_parse_html_content_witness :
    (segmentText "Just a plain statement.").examples = [] ∧
    (segmentText "Just a plain statement.").constraints = [] ∧
    (segmentText "Just a plain statement.").description =
      pyStrip "Just a plain statement." :=
  c9_parse_html_content.2 "Just a plain statement." (by decide) (by decide)

end CodeContest
